import Mathlib

/-!
Verification of the az7792/ThreadPool repository (src/ThreadPool.h,
src/SafeQueue.h) through a shallow embedding in Lean 4.

The embedding has two layers:

* Sequential models of the individual member functions
  (`SafeQueue` operations, `ThreadPool.submit`, the constructor's
  thread-count resolution, `addWorkers` for temporary threads,
  `close`, one iteration of `manager`).  Each definition is a direct
  transcription of the corresponding C++ body.

* A small-step transition system (`Step`) for the concurrent part:
  the pool's shared state (`running` flag, task queue, per-task result
  handles, permanent and temporary worker loops) with one transition
  per lock-protected critical section of `worker()` / `tempWorker()` /
  `submit()` / `close()`.  Task bodies are an environment
  `env : Nat → Except Nat Nat` mapping a task id to the outcome of
  running its body (`.ok v`, or `.error e` when the body throws);
  `std::packaged_task` invocation stores exactly this outcome in the
  task's future (handle).
-/

namespace TP

/-! ## SafeQueue (src/SafeQueue.h)

The queue is a `std::deque` guarded by a mutex; each operation is one
critical section, so at the granularity of the transition system each
operation is one atomic function on the list of elements. -/

namespace SafeQueue

/-- `SafeQueue::emplace_back` (src/SafeQueue.h:26-31): append at the back.
`ThreadPool::submit`'s `m_tasks.push(...)` enqueues at the back of the
deque in the same way. -/
def emplace_back (q : List α) (a : α) : List α := q ++ [a]

/-- `SafeQueue::pop_front` combined with reading `front()`
(src/SafeQueue.h:33-38, 65-69); `ThreadPool`'s `m_tasks.pop(task)` removes
the front element into `task`.  Popping an empty deque is undefined
behaviour ("pop前需要手动判空": the caller must check emptiness first),
modelled by `none`. -/
def pop (q : List α) : Option (α × List α) :=
  match q with
  | [] => none
  | a :: rest => some (a, rest)

/-- `SafeQueue::size` (src/SafeQueue.h:76-80). -/
def size (q : List α) : Nat := q.length

/-- `SafeQueue::empty` (src/SafeQueue.h:82-86). -/
def empty (q : List α) : Bool := q.isEmpty

end SafeQueue

/-! ## ThreadPool.submit (src/ThreadPool.h:144-161), sequential model

`submit` packages the callable, then checks `m_running`: if the pool is
stopped it throws `std::runtime_error` ("ThreadPool is stopped, cannot
submit new task.") before any enqueue, leaving `m_tasks` untouched;
otherwise it pushes the wrapped task and returns the task's future.
Tasks are identified by `Nat` ids; the returned future/handle is the id. -/

/-- The error surfaced by `submit` after shutdown (the thrown
`std::runtime_error`), called PoolClosed in the design document. -/
inductive PoolError where
  | poolClosed
deriving DecidableEq

/-- State visible to `submit`: the `m_running` flag and the task queue. -/
structure SubmitState where
  running : Bool
  tasks : List Nat
deriving DecidableEq

/-- `ThreadPool::submit` (src/ThreadPool.h:144-161): check `m_running`,
throw PoolClosed if stopped (queue untouched), else enqueue the task at
the back and return its future. -/
def submit (s : SubmitState) (t : Nat) : SubmitState × Except PoolError Nat :=
  if s.running = false then
    (s, Except.error PoolError.poolClosed)
  else
    ({ s with tasks := SafeQueue.emplace_back s.tasks t }, Except.ok t)

/-! ## Constructor thread-count resolution (src/ThreadPool.h:67-81) -/

/-- `ThreadPool::ThreadPool` (src/ThreadPool.h:67-76): `threadCount == 0`
resolves to `std::thread::hardware_concurrency()` (`hw`); the result is
then forced into `[minT, maxT]` by the two `if` tests, and
`addWorkers(threadCount, false)` creates exactly that many permanent
workers. -/
def initWorkerCount (threadCount hw minT maxT : Nat) : Nat :=
  let t := if threadCount = 0 then hw else threadCount
  if t < minT then minT
  else if t > maxT then maxT
  else t

/-! ## addWorkers for temporary threads (src/ThreadPool.h:264-290)

The `isTemp` branch loops `for (i = 0; i < threadCount && m_tempWorkers.size() < m_maxThreads; ++i)`,
emplacing one temporary thread per iteration and counting `addNum`.
`addWorkersTemp temp maxT n` returns the new `m_tempWorkers.size()` and
`addNum`, starting from `temp` current temporary workers. -/

/-- The temporary branch of `ThreadPool::addWorkers`
(src/ThreadPool.h:267-277): add up to `n` temporary workers, stopping
as soon as the temporary-worker map reaches `m_maxThreads`.  Returns
(new temporary-worker count, number actually added). -/
def addWorkersTemp (temp maxT : Nat) : Nat → Nat × Nat
  | 0 => (temp, 0)
  | Nat.succ k =>
    if temp < maxT then
      let r := addWorkersTemp (temp + 1) maxT k
      (r.1, r.2 + 1)
    else
      (temp, 0)

/-- The permanent branch of `ThreadPool::addWorkers`
(src/ThreadPool.h:278-288): unconditionally emplace `n` workers. -/
def addWorkersPerm (workers n : Nat) : Nat × Nat := (workers + n, n)

/-- `ThreadPool::getThreadNum` (src/ThreadPool.h:165-169). -/
def getThreadNum (workers temp : Nat) : Nat := workers + temp

/-! ## close (src/ThreadPool.h:95-118) and the destructor (83-87)

`close()` sets `m_running = false`, joins the manager if joinable,
drains `m_threadExitQueue` joining each joinable handle, then joins every
temporary and every permanent worker that is joinable.  Joining a
`std::thread` makes it non-joinable, so the model records one `Bool`
(joinable?) per thread handle and counts how many joins a call performs. -/

/-- The thread handles `close` touches: the manager, the retirement
queue `m_threadExitQueue`, the temporary workers `m_tempWorkers` and
the permanent workers `m_workers`, each represented by its
`joinable()` flag, plus the `m_running` flag. -/
structure CloseState where
  running : Bool
  managerJoinable : Bool
  exitQ : List Bool
  temps : List Bool
  perms : List Bool
deriving DecidableEq

/-- `ThreadPool::close` (src/ThreadPool.h:95-118): flip `m_running`,
join the manager if joinable, pop-and-join every handle of
`m_threadExitQueue`, then join every joinable temporary and permanent
worker.  Returns the state after the call and the number of `join`
calls performed (each `join` makes its handle non-joinable). -/
def close (s : CloseState) : CloseState × Nat :=
  ({ running := false
     managerJoinable := false
     exitQ := []
     temps := s.temps.map (fun _ => false)
     perms := s.perms.map (fun _ => false) },
   (if s.managerJoinable then 1 else 0)
     + s.exitQ.count true + s.temps.count true + s.perms.count true)

/-- `ThreadPool::~ThreadPool` (src/ThreadPool.h:83-87): call `close()`
only if `m_running` is still true; performs no join otherwise. -/
def destructor (s : CloseState) : CloseState × Nat :=
  if s.running then close s else (s, 0)

/-! ## One iteration of the manager loop (src/ThreadPool.h:313-350)

An iteration runs from the return of `m_managerCV.wait_until` to the
end of the loop body: first `if (!m_running) return;` (note: *before*
the retirement-queue drain), then drain `m_threadExitQueue` joining
each handle, then, if `m_tasks.size() >= 2 * m_workers.size()`, call
`addWorkers(m_workers.size(), true)` and, only when that actually
created at least one thread, set `lastScaleUp` to the current time. -/

/-- Pool state as seen by the manager loop: the `m_running` flag, the
task-queue length, the permanent-worker count (`m_workers.size()`,
never changed after construction), the temporary-worker count, the
`m_maxThreads` bound, the retirement queue (joinable flags), and the
manager-local `lastScaleUp` timestamp in milliseconds. -/
structure MgrState where
  running : Bool
  tasksLen : Nat
  workersLen : Nat
  tempCount : Nat
  maxThreads : Nat
  exitQ : List Bool
  lastScaleUp : Nat
deriving DecidableEq

/-- Result of one manager iteration: `halt` models `return` from
`manager()`, `next` models falling through to the next loop test. -/
inductive MgrOut where
  | halt (s : MgrState)
  | next (s : MgrState)
deriving DecidableEq

/-- One iteration of `ThreadPool::manager` (src/ThreadPool.h:331-348)
after waking at time `now`: return immediately when `m_running` is
false (the retirement queue is *not* drained on this path), otherwise
drain the retirement queue, then scale up when
`m_tasks.size() >= 2 * m_workers.size()`, updating `lastScaleUp` only
when `addWorkers` reports an effective addition. -/
def managerIter (s : MgrState) (now : Nat) : MgrOut :=
  if s.running = false then
    MgrOut.halt s
  else
    let s1 : MgrState := { s with exitQ := [] }
    if 2 * s1.workersLen ≤ s1.tasksLen then
      let r := addWorkersTemp s1.tempCount s1.maxThreads s1.workersLen
      if 0 < r.2 then
        MgrOut.next { s1 with tempCount := r.1, lastScaleUp := now }
      else
        MgrOut.next { s1 with tempCount := r.1 }
    else
      MgrOut.next s1

/-- The predicate of the manager's `wait_until`
(src/ThreadPool.h:325-330): `(now - lastScaleUp >= 1s ∧
tasks.size() >= 2 * workers.size()) ∨ ¬running`.  Times are in
milliseconds. -/
def managerWaitPred (s : MgrState) (now : Nat) : Prop :=
  (1000 ≤ now - s.lastScaleUp ∧ 2 * s.workersLen ≤ s.tasksLen) ∨ s.running = false

/-- `std::condition_variable::wait_until(lock, timeout, pred)` returns
either because the predicate became true on a notification or because
the absolute timeout (2 s after the wait started,
src/ThreadPool.h:319-322) was reached.  `managerWake s waitStart now`
says the wait that began at `waitStart` can return at `now`. -/
def managerWake (s : MgrState) (waitStart now : Nat) : Prop :=
  now = waitStart + 2000 ∨ managerWaitPred s now

/-! ## The concurrent transition system

Each transition is one critical section of `worker()`, `tempWorker()`,
`submit()` or `close()` under `m_mutex` (task execution itself runs
outside the lock, so pop and completion are separate transitions).
Tasks are numbered in submission order; `env id` is the outcome of
running task `id`'s body. -/

/-- Control state of one worker loop: blocked in `m_cv.wait` /
`wait_until` (`waiting`), running task `id` outside the lock
(`executing id`), returned through the stop branch (`terminated`), or —
temporary workers only — returned through the idle-timeout branch of
`tempWorker` after moving its own handle to `m_threadExitQueue`
(`retired`). -/
inductive WStatus where
  | waiting
  | executing (id : Nat)
  | terminated
  | retired
deriving DecidableEq

/-- The task a worker holds outside the lock, if any. -/
def WStatus.taskOf : WStatus → Option Nat
  | WStatus.executing id => some id
  | _ => none

/-- The wait predicate of both worker loops
(src/ThreadPool.h:185-186 and 227-228): `!m_tasks.empty() || !m_running`. -/
def cvWaitPred (tasks : List Nat) (running : Bool) : Bool :=
  !SafeQueue.empty tasks || !running

/-- The stop test of both worker loops
(src/ThreadPool.h:188 and 238): `!m_running && m_tasks.empty()`. -/
def stopCheck (tasks : List Nat) (running : Bool) : Bool :=
  !running && SafeQueue.empty tasks

/-- Shared pool state: the `m_running` flag, the task queue `m_tasks`
(ids in queue order), the number of ids handed out by `submit`
(`nextId`, so ids `0, …, nextId-1` have been accepted), the multiset of
ids whose bodies have been run to completion, the futures
(`handles id = some r` once task `id`'s `packaged_task` has been
invoked, storing outcome `r`), and the permanent (`m_workers`) and
temporary (`m_tempWorkers`) worker loops. -/
structure PoolState where
  running : Bool
  tasks : List Nat
  nextId : Nat
  executed : Multiset Nat
  handles : Nat → Option (Except Nat Nat)
  workers : List WStatus
  temps : List WStatus

/-- One atomic step of the pool, parametrised by the task bodies
`env : id ↦ outcome`.  Constructors map to source locations:
* `submit` — src/ThreadPool.h:152-157, the accepting path of `submit()`;
* `closeFlag` — src/ThreadPool.h:97, `m_running = false` in `close()`;
* `workerTake`/`tempTake` — src/ThreadPool.h:183-190 / 225-240: wake
  with the wait predicate true, pass the stop test, pop the front task;
* `workerFinish`/`tempFinish` — src/ThreadPool.h:192-205 / 242-255:
  invoke the task's `packaged_task` (storing `env id` in its future,
  whether `.ok` or `.error`), with the worker's try/catch absorbing any
  escaping exception, and loop back to `waiting`;
* `workerExit`/`tempExit` — src/ThreadPool.h:188-189 / 238-239: the
  stop test fires (`!m_running && m_tasks.empty()`), `return`;
* `tempTimeout` — src/ThreadPool.h:230-236: `wait_until` returns
  `false` (timeout with the predicate still false, i.e. queue empty and
  pool running); the thread moves its handle into `m_threadExitQueue`
  and returns;
* `spawnTemp` — src/ThreadPool.h:270-276: the manager's
  `addWorkers(…, true)` emplaces one new temporary worker (one
  transition per thread created); the manager loop only runs while
  `m_running` is true (src/ThreadPool.h:316, 331). -/
inductive Step (env : Nat → Except Nat Nat) : PoolState → PoolState → Prop where
  | submit (s : PoolState) (h : s.running = true) :
      Step env s { s with tasks := SafeQueue.emplace_back s.tasks s.nextId,
                          nextId := s.nextId + 1 }
  | closeFlag (s : PoolState) :
      Step env s { s with running := false }
  | workerTake (s : PoolState) (i t : Nat) (rest : List Nat)
      (hi : s.workers.get? i = some WStatus.waiting)
      (hw : cvWaitPred s.tasks s.running = true)
      (hs : stopCheck s.tasks s.running = false)
      (hp : SafeQueue.pop s.tasks = some (t, rest)) :
      Step env s { s with workers := s.workers.set i (WStatus.executing t),
                          tasks := rest }
  | workerFinish (s : PoolState) (i t : Nat)
      (hi : s.workers.get? i = some (WStatus.executing t)) :
      Step env s { s with workers := s.workers.set i WStatus.waiting,
                          executed := t ::ₘ s.executed,
                          handles := fun j => if j = t then some (env t) else s.handles j }
  | workerExit (s : PoolState) (i : Nat)
      (hi : s.workers.get? i = some WStatus.waiting)
      (hs : stopCheck s.tasks s.running = true) :
      Step env s { s with workers := s.workers.set i WStatus.terminated }
  | tempTake (s : PoolState) (i t : Nat) (rest : List Nat)
      (hi : s.temps.get? i = some WStatus.waiting)
      (hw : cvWaitPred s.tasks s.running = true)
      (hs : stopCheck s.tasks s.running = false)
      (hp : SafeQueue.pop s.tasks = some (t, rest)) :
      Step env s { s with temps := s.temps.set i (WStatus.executing t),
                          tasks := rest }
  | tempFinish (s : PoolState) (i t : Nat)
      (hi : s.temps.get? i = some (WStatus.executing t)) :
      Step env s { s with temps := s.temps.set i WStatus.waiting,
                          executed := t ::ₘ s.executed,
                          handles := fun j => if j = t then some (env t) else s.handles j }
  | tempExit (s : PoolState) (i : Nat)
      (hi : s.temps.get? i = some WStatus.waiting)
      (hs : stopCheck s.tasks s.running = true) :
      Step env s { s with temps := s.temps.set i WStatus.terminated }
  | tempTimeout (s : PoolState) (i : Nat)
      (hi : s.temps.get? i = some WStatus.waiting)
      (hw : cvWaitPred s.tasks s.running = false) :
      Step env s { s with temps := s.temps.set i WStatus.retired }
  | spawnTemp (s : PoolState) (h : s.running = true) :
      Step env s { s with temps := s.temps ++ [WStatus.waiting] }

/-- The pool right after the constructor ran `addWorkers(n, false)`
(src/ThreadPool.h:67-81): running, empty queue, no accepted tasks, `n`
permanent workers blocked in `wait`, no temporary workers. -/
def init (n : Nat) : PoolState :=
  { running := true
    tasks := []
    nextId := 0
    executed := 0
    handles := fun _ => none
    workers := List.replicate n WStatus.waiting
    temps := [] }

/-- States reachable from a fresh pool with `n` permanent workers. -/
def Reachable (env : Nat → Except Nat Nat) (n : Nat) (s : PoolState) : Prop :=
  Relation.ReflTransGen (Step env) (init n) s

/-- Multiset of task ids currently being executed by the given worker
loops (popped from the queue, body not yet finished). -/
def inflight (ws : List WStatus) : Multiset Nat :=
  (ws.filterMap WStatus.taskOf : List Nat)

/-- Every worker loop has returned: permanent workers through the stop
branch, temporary workers through the stop branch or the idle-timeout
branch.  This is the state `close()` observes once all its `join`s
return. -/
def allDone (s : PoolState) : Prop :=
  (∀ w ∈ s.workers, w = WStatus.terminated) ∧
  (∀ w ∈ s.temps, w = WStatus.terminated ∨ w = WStatus.retired)

/-- Inductive invariant of the pool:
1. task conservation — accepted = executed + in-flight + queued, with
   the right multiplicities;
2. the permanent-worker vector is non-empty (the constructor creates at
   least `m_minThreads = 2` workers);
3. a permanent worker returns only after observing `m_running == false`,
   and the flag never goes back to true;
4. once every worker loop has returned, the queue is empty. -/
def Inv (s : PoolState) : Prop :=
  (s.executed + inflight s.workers + inflight s.temps + (s.tasks : Multiset Nat)
      = Multiset.range s.nextId)
  ∧ s.workers ≠ []
  ∧ (∀ w ∈ s.workers, w = WStatus.terminated → s.running = false)
  ∧ (allDone s → s.tasks = [])

/-! ## Concrete states used to instantiate the theorems -/

/-- A task environment in which every task body succeeds with value 5. -/
def okEnv : Nat → Except Nat Nat := fun _ => Except.ok 5

/-- A task environment in which every task body throws (error code 7). -/
def errEnv : Nat → Except Nat Nat := fun _ => Except.error 7

/-- The pool after: one task submitted, taken and completed by the one
permanent worker, `close()` flagged, worker exited through the stop
branch.  Reached from `init 1` in five steps. -/
def drainedState : PoolState :=
  { running := false
    tasks := []
    nextId := 1
    executed := (0 : Nat) ::ₘ 0
    handles := fun j => if j = 0 then some (Except.ok 5) else none
    workers := [WStatus.terminated]
    temps := [] }

/-- A running pool with an empty queue, one permanent worker and one
temporary worker blocked in `wait_until` (reached from `init 1` by one
`spawnTemp` step). -/
def idleTempState : PoolState :=
  { running := true
    tasks := []
    nextId := 0
    executed := 0
    handles := fun _ => none
    workers := [WStatus.waiting]
    temps := [WStatus.waiting] }

/-- `idleTempState` after the temporary worker's 5-second idle timeout
fired: it retired while the pool was still running. -/
def idleTempRetired : PoolState :=
  { idleTempState with temps := [WStatus.retired] }

/-- One worker mid-execution of task 0 (whose body throws under
`errEnv`). -/
def failingTaskState : PoolState :=
  { running := true
    tasks := []
    nextId := 1
    executed := 0
    handles := fun _ => none
    workers := [WStatus.executing 0]
    temps := [] }

/-- A stopped pool (after `closeFlag`) whose one permanent worker is
still blocked in `wait` with an empty queue: the stop test fires on the
next wake. -/
def closedIdleState : PoolState :=
  { running := false
    tasks := []
    nextId := 0
    executed := 0
    handles := fun _ => none
    workers := [WStatus.waiting]
    temps := [] }

/-- `failingTaskState` after its worker invoked task 0's
`packaged_task` under `errEnv`: the error outcome is stored in the
task's handle and the worker is back in `wait`. -/
def failedHandledState : PoolState :=
  { running := true
    tasks := []
    nextId := 1
    executed := (0 : Nat) ::ₘ 0
    handles := fun j => if j = 0 then some (Except.error 7) else none
    workers := [WStatus.waiting]
    temps := [] }

/-- Manager-visible state at a wake that observes `m_running == false`
while one joinable retired-thread handle still sits in
`m_threadExitQueue`. -/
def mgrStopped : MgrState :=
  { running := false
    tasksLen := 0
    workersLen := 2
    tempCount := 0
    maxThreads := 20
    exitQ := [true]
    lastScaleUp := 0 }

/-- Manager-visible state of a running pool with backlog: 2 permanent
workers, 8 queued tasks, no temporary workers yet. -/
def mgrBacklog : MgrState :=
  { running := true
    tasksLen := 8
    workersLen := 2
    tempCount := 0
    maxThreads := 20
    exitQ := []
    lastScaleUp := 0 }

/-! ## Helper lemmas -/

/-- Updating index `i` (holding `w`) to `b` exchanges `w`'s filterMap
contribution for `b`'s, as multisets. -/
lemma filterMap_set_count {α β : Type} (f : α → Option β) (b : α) :
    ∀ (ws : List α) (i : Nat) (w : α), ws.get? i = some w →
      ((((ws.set i b).filterMap f : List β) : Multiset β) + ((f w).toList : List β))
        = (((ws.filterMap f : List β) : Multiset β) + ((f b).toList : List β)) := by
  intro ws
  induction ws with
  | nil => intro i w h; simp at h
  | cons a tl ih =>
    intro i w h
    cases i with
    | zero =>
      simp only [List.get?] at h
      injection h with h
      subst h
      cases hfb : f b <;> cases hfa : f a <;>
        simp [List.filterMap_cons, hfb, hfa, ← Multiset.cons_coe,
          ← Multiset.singleton_add] <;> abel
    | succ j =>
      simp only [List.get?] at h
      have := ih j w h
      cases hfa : f a
      · simpa [List.filterMap_cons, hfa] using this
      · simp only [List.set, List.filterMap_cons, hfa, ← Multiset.cons_coe,
          Multiset.cons_add]
        exact congrArg _ this

lemma pop_eq_cons {t : Nat} {rest q : List Nat}
    (h : SafeQueue.pop q = some (t, rest)) : q = t :: rest := by
  cases q with
  | nil => simp [SafeQueue.pop] at h
  | cons a l =>
    simp only [SafeQueue.pop, Option.some.injEq, Prod.mk.injEq] at h
    rw [h.1, h.2]

lemma stopCheck_true {q : List Nat} {r : Bool}
    (h : stopCheck q r = true) : r = false ∧ q = [] := by
  simp [stopCheck, SafeQueue.empty, List.isEmpty_iff] at h
  exact ⟨h.1, h.2⟩

lemma cvWaitPred_false {q : List Nat} {r : Bool}
    (h : cvWaitPred q r = false) : r = true ∧ q = [] := by
  simp [cvWaitPred, SafeQueue.empty, List.isEmpty_iff] at h
  exact ⟨h.2, h.1⟩

/-- `inflight` after replacing a `waiting` slot by `executing t`. -/
lemma inflight_set_take {ws : List WStatus} {i t : Nat}
    (hi : ws.get? i = some WStatus.waiting) :
    inflight (ws.set i (WStatus.executing t)) = inflight ws + {t} := by
  have := filterMap_set_count WStatus.taskOf (WStatus.executing t) ws i _ hi
  simpa [inflight, WStatus.taskOf, ← Multiset.singleton_add] using this

/-- `inflight` after an `executing t` slot finishes and returns to
`waiting`. -/
lemma inflight_set_finish {ws : List WStatus} {i t : Nat}
    (hi : ws.get? i = some (WStatus.executing t)) :
    inflight (ws.set i WStatus.waiting) + {t} = inflight ws := by
  have := filterMap_set_count WStatus.taskOf WStatus.waiting ws i _ hi
  simpa [inflight, WStatus.taskOf, ← Multiset.singleton_add] using this

/-- `inflight` is unchanged when a slot moves between two states that
hold no task. -/
lemma inflight_set_idle {ws : List WStatus} {i : Nat} {w b : WStatus}
    (hi : ws.get? i = some w) (hw : w.taskOf = none) (hb : b.taskOf = none) :
    inflight (ws.set i b) = inflight ws := by
  have := filterMap_set_count WStatus.taskOf b ws i _ hi
  simpa [inflight, hw, hb] using this

lemma set_ne_nil {ws : List α} (h : ws ≠ []) (i : Nat) (b : α) :
    ws.set i b ≠ [] := by
  cases ws with
  | nil => exact absurd rfl h
  | cons a tl => cases i <;> simp [List.set]

/-- Task conservation is preserved by every step. -/
lemma conservation_step {env : Nat → Except Nat Nat} {s t : PoolState}
    (hst : Step env s t)
    (h : s.executed + inflight s.workers + inflight s.temps
          + (s.tasks : Multiset Nat) = Multiset.range s.nextId) :
    t.executed + inflight t.workers + inflight t.temps
      + (t.tasks : Multiset Nat) = Multiset.range t.nextId := by
  cases hst with
  | submit hr =>
    show s.executed + inflight s.workers + inflight s.temps
        + ((SafeQueue.emplace_back s.tasks s.nextId : List Nat) : Multiset Nat)
        = Multiset.range (s.nextId + 1)
    simp only [SafeQueue.emplace_back]
    rw [← Multiset.coe_add, Multiset.coe_singleton, Multiset.range_succ,
      ← Multiset.singleton_add, ← h]
    abel
  | closeFlag => exact h
  | workerTake i t rest hi hw hs hp =>
    show s.executed + inflight (s.workers.set i (WStatus.executing t))
        + inflight s.temps + (rest : Multiset Nat) = Multiset.range s.nextId
    rw [pop_eq_cons hp, ← Multiset.cons_coe, ← Multiset.singleton_add] at h
    rw [inflight_set_take hi, ← h]
    abel
  | workerFinish i t hi =>
    show (t ::ₘ s.executed) + inflight (s.workers.set i WStatus.waiting)
        + inflight s.temps + (s.tasks : Multiset Nat) = Multiset.range s.nextId
    rw [← inflight_set_finish hi] at h
    rw [← Multiset.singleton_add, ← h]
    abel
  | workerExit i hi hs =>
    show s.executed + inflight (s.workers.set i WStatus.terminated)
        + inflight s.temps + (s.tasks : Multiset Nat) = Multiset.range s.nextId
    rw [inflight_set_idle (w := WStatus.waiting) (b := WStatus.terminated) hi rfl rfl]
    exact h
  | tempTake i t rest hi hw hs hp =>
    show s.executed + inflight s.workers
        + inflight (s.temps.set i (WStatus.executing t))
        + (rest : Multiset Nat) = Multiset.range s.nextId
    rw [pop_eq_cons hp, ← Multiset.cons_coe, ← Multiset.singleton_add] at h
    rw [inflight_set_take hi, ← h]
    abel
  | tempFinish i t hi =>
    show (t ::ₘ s.executed) + inflight s.workers
        + inflight (s.temps.set i WStatus.waiting)
        + (s.tasks : Multiset Nat) = Multiset.range s.nextId
    rw [← inflight_set_finish hi] at h
    rw [← Multiset.singleton_add, ← h]
    abel
  | tempExit i hi hs =>
    show s.executed + inflight s.workers
        + inflight (s.temps.set i WStatus.terminated)
        + (s.tasks : Multiset Nat) = Multiset.range s.nextId
    rw [inflight_set_idle (w := WStatus.waiting) (b := WStatus.terminated) hi rfl rfl]
    exact h
  | tempTimeout i hi hw =>
    show s.executed + inflight s.workers
        + inflight (s.temps.set i WStatus.retired)
        + (s.tasks : Multiset Nat) = Multiset.range s.nextId
    rw [inflight_set_idle (w := WStatus.waiting) (b := WStatus.retired) hi rfl rfl]
    exact h
  | spawnTemp hr =>
    show s.executed + inflight s.workers
        + inflight (s.temps ++ [WStatus.waiting])
        + (s.tasks : Multiset Nat) = Multiset.range s.nextId
    have : inflight (s.temps ++ [WStatus.waiting]) = inflight s.temps := by
      simp [inflight, List.filterMap_append, WStatus.taskOf]
    rw [this]
    exact h

/-- The invariant is preserved by every step. -/
lemma Inv_step {env : Nat → Except Nat Nat} {s t : PoolState}
    (hst : Step env s t) (h : Inv s) : Inv t := by
  obtain ⟨h1, h2, h3, h4⟩ := h
  refine ⟨conservation_step hst h1, ?_, ?_, ?_⟩ <;> cases hst
  case _ => exact h2
  case _ => exact h2
  case _ i t rest hi hw hs hp => exact set_ne_nil h2 i _
  case _ i t hi => exact set_ne_nil h2 i _
  case _ i hi hs => exact set_ne_nil h2 i _
  case _ i t rest hi hw hs hp => exact h2
  case _ i t hi => exact h2
  case _ i hi hs => exact h2
  case _ i hi hw => exact h2
  case _ hr => exact h2
  -- worker-terminated implies not running
  case _ hr => exact h3
  case _ => intro w hw hterm; rfl
  case _ i t rest hi hw hs hp =>
    intro w hmem hterm
    rcases List.mem_or_eq_of_mem_set hmem with hmem | rfl
    · exact h3 w hmem hterm
    · exact absurd hterm (by simp)
  case _ i t hi =>
    intro w hmem hterm
    rcases List.mem_or_eq_of_mem_set hmem with hmem | rfl
    · exact h3 w hmem hterm
    · exact absurd hterm (by simp)
  case _ i hi hs =>
    intro w hmem hterm
    exact (stopCheck_true hs).1
  case _ i t rest hi hw hs hp => exact h3
  case _ i t hi => exact h3
  case _ i hi hs => exact h3
  case _ i hi hw => exact h3
  case _ hr => exact h3
  -- all worker loops returned implies empty queue
  case _ hr =>
    intro hd
    exfalso
    obtain ⟨w, hw⟩ := List.exists_mem_of_ne_nil s.workers h2
    have := h3 w hw (hd.1 w hw)
    rw [hr] at this
    exact absurd this (by simp)
  case _ =>
    intro hd
    exact h4 ⟨hd.1, hd.2⟩
  case _ i t rest hi hw hs hp =>
    intro hd
    exfalso
    obtain ⟨hlt, -⟩ := List.get?_eq_some.mp hi
    have hmem : WStatus.executing t ∈ s.workers.set i (WStatus.executing t) :=
      List.get?_mem (List.get?_set_eq_of_lt _ hlt)
    exact absurd (hd.1 _ hmem) (by simp)
  case _ i t hi =>
    intro hd
    exfalso
    obtain ⟨hlt, -⟩ := List.get?_eq_some.mp hi
    have hmem : WStatus.waiting ∈ s.workers.set i WStatus.waiting :=
      List.get?_mem (List.get?_set_eq_of_lt _ hlt)
    exact absurd (hd.1 _ hmem) (by simp)
  case _ i hi hs =>
    intro hd
    exact (stopCheck_true hs).2
  case _ i t rest hi hw hs hp =>
    intro hd
    exfalso
    obtain ⟨hlt, -⟩ := List.get?_eq_some.mp hi
    have hmem : WStatus.executing t ∈ s.temps.set i (WStatus.executing t) :=
      List.get?_mem (List.get?_set_eq_of_lt _ hlt)
    rcases hd.2 _ hmem with hx | hx <;> exact absurd hx (by simp)
  case _ i t hi =>
    intro hd
    exfalso
    obtain ⟨hlt, -⟩ := List.get?_eq_some.mp hi
    have hmem : WStatus.waiting ∈ s.temps.set i WStatus.waiting :=
      List.get?_mem (List.get?_set_eq_of_lt _ hlt)
    rcases hd.2 _ hmem with hx | hx <;> exact absurd hx (by simp)
  case _ i hi hs =>
    intro hd
    exact (stopCheck_true hs).2
  case _ i hi hw =>
    intro hd
    exact (cvWaitPred_false hw).2
  case _ hr =>
    intro hd
    exfalso
    have hmem : WStatus.waiting ∈ s.temps ++ [WStatus.waiting] :=
      List.mem_append_right _ (List.mem_singleton_self _)
    rcases hd.2 _ hmem with hx | hx <;> exact absurd hx (by simp)

/-- The invariant holds in the initial state (the constructor creates
`0 < n` permanent workers). -/
lemma Inv_init {n : Nat} (hn : 0 < n) : Inv (init n) := by
  refine ⟨?_, ?_, ?_, ?_⟩
  · have hfm : (List.replicate n WStatus.waiting).filterMap WStatus.taskOf = [] :=
      List.filterMap_eq_nil.mpr (by
        intro a ha
        rw [List.eq_of_mem_replicate ha]
        rfl)
    simp [init, inflight, hfm]
  · intro h
    have := congrArg List.length h
    simp [init] at this
    omega
  · intro w hw hterm
    exfalso
    rw [List.eq_of_mem_replicate hw] at hterm
    exact WStatus.noConfusion hterm
  · intro _
    rfl

/-- Every reachable state satisfies the invariant. -/
lemma Inv_reachable {env : Nat → Except Nat Nat} {n : Nat} {s : PoolState}
    (hr : Reachable env n s) (hn : 0 < n) : Inv s := by
  induction hr with
  | refl => exact Inv_init hn
  | tail hab hbc ih => exact Inv_step hbc ih

lemma get?_set_cases {l : List α} {i j : Nat} {b c : α}
    (h : (l.set i b).get? j = some c) : c = b ∨ l.get? j = some c := by
  rcases eq_or_ne i j with rfl | hne
  · rw [List.get?_set_eq] at h
    cases hl : l.get? i with
    | none => rw [hl] at h; exact absurd h (by simp)
    | some a =>
      rw [hl] at h
      simp only [Option.map_eq_map, Option.map_some, Option.some.injEq] at h
      exact Or.inl h.symm
  · rw [List.get?_set_ne _ l hne] at h
    exact Or.inr h

lemma get?_append_singleton_cases {l : List α} {a c : α} {j : Nat}
    (h : (l ++ [a]).get? j = some c) : l.get? j = some c ∨ c = a := by
  rcases Nat.lt_or_ge j l.length with hj | hj
  · rw [List.get?_append hj] at h
    exact Or.inl h
  · rw [List.get?_append_right hj] at h
    rcases hd : j - l.length with - | k
    · rw [hd] at h
      simp only [List.get?, Option.some.injEq] at h
      exact Or.inr h.symm
    · rw [hd] at h
      exact absurd h (by simp [List.get?])

/-- The first component of `addWorkersTemp`: the loop fills the
temporary-worker map up to `maxT`, one thread at a time. -/
lemma addWorkersTemp_fst (maxT : Nat) :
    ∀ (n temp : Nat), temp ≤ maxT →
      (addWorkersTemp temp maxT n).1 = min (temp + n) maxT := by
  intro n
  induction n with
  | zero =>
    intro temp h
    simp only [addWorkersTemp]
    omega
  | succ k ih =>
    intro temp h
    by_cases hlt : temp < maxT
    · simp only [addWorkersTemp, if_pos hlt]
      rw [ih (temp + 1) hlt]
      omega
    · simp only [addWorkersTemp, if_neg hlt]
      omega

/-- `addWorkers` reports success (`addNum > 0`) exactly when it was
asked for at least one thread and the map was below `maxT`. -/
lemma addWorkersTemp_pos (maxT : Nat) :
    ∀ (n temp : Nat), 0 < (addWorkersTemp temp maxT n).2 ↔ (0 < n ∧ temp < maxT) := by
  intro n
  cases n with
  | zero => intro temp; simp [addWorkersTemp]
  | succ k =>
    intro temp
    by_cases hlt : temp < maxT
    · simp [addWorkersTemp, if_pos hlt, hlt]
    · simp [addWorkersTemp, if_neg hlt, hlt]

/-- Unfolding of a manager iteration on a running pool. -/
lemma managerIter_run (s : MgrState) (now : Nat) (h : s.running = true) :
    managerIter s now =
      (if 2 * s.workersLen ≤ s.tasksLen then
        (if 0 < (addWorkersTemp s.tempCount s.maxThreads s.workersLen).2 then
          MgrOut.next { s with exitQ := []
                               tempCount := (addWorkersTemp s.tempCount s.maxThreads s.workersLen).1
                               lastScaleUp := now }
        else
          MgrOut.next { s with exitQ := []
                               tempCount := (addWorkersTemp s.tempCount s.maxThreads s.workersLen).1 })
      else MgrOut.next { s with exitQ := [] }) := by
  rw [managerIter, if_neg]
  rw [h]
  simp

/-! ## Claim theorems -/

/-- C2: if `m_running` is false when `submit` is called, it fails with
the PoolClosed error and the task queue is unchanged (the task is never
enqueued); if `m_running` is true, the task is enqueued at the back of
the queue and its future/handle is returned. -/
theorem submit_poolClosed_spec (q : List Nat) (t : Nat) :
    ((submit { running := false, tasks := q } t).2
        = Except.error PoolError.poolClosed
      ∧ (submit { running := false, tasks := q } t).1
        = { running := false, tasks := q })
    ∧ ((submit { running := true, tasks := q } t).2 = Except.ok t
      ∧ (submit { running := true, tasks := q } t).1.tasks = q ++ [t]) :=
  ⟨⟨rfl, rfl⟩, rfl, rfl⟩

/-- C9: for every `size` argument, the number of permanent workers
created by the constructor is `size` (or hardware parallelism when
`size` is 0) clamped into `[minThreads, maxThreads]`. -/
theorem ctor_thread_count (size hw minT maxT : Nat) (h : minT ≤ maxT) :
    initWorkerCount size hw minT maxT
        = max minT (min maxT (if size = 0 then hw else size))
    ∧ (addWorkersPerm 0 (initWorkerCount size hw minT maxT)).2
        = initWorkerCount size hw minT maxT := by
  refine ⟨?_, rfl⟩
  simp only [initWorkerCount]
  split_ifs <;> omega

/-- Witness for `ctor_thread_count` at `size = 0`, `hw = 8`,
`minThreads = 2`, `maxThreads = 20`. -/
theorem ctor_thread_count_witness :
    2 ≤ 20
    ∧ initWorkerCount 0 8 2 20 = max 2 (min 20 (if (0 : Nat) = 0 then 8 else 0)) :=
  ⟨by decide, (ctor_thread_count 0 8 2 20 (by decide)).1⟩

/-- C10: whenever the worker loops reach `m_tasks.pop(task)`, the
condition-variable wait predicate has returned true and the stop test
has failed, and those two facts force the task queue to be non-empty,
so the unchecked pop's precondition always holds. -/
theorem pop_precondition (tasks : List Nat) (running : Bool)
    (hw : cvWaitPred tasks running = true)
    (hs : stopCheck tasks running = false) :
    (SafeQueue.pop tasks).isSome = true := by
  cases tasks with
  | nil =>
    exfalso
    cases running
    · simp [stopCheck, SafeQueue.empty] at hs
    · simp [cvWaitPred, SafeQueue.empty] at hw
  | cons a l => rfl

/-- Witness for `pop_precondition` on the one-element queue `[5]` of a
running pool. -/
theorem pop_precondition_witness :
    cvWaitPred [5] true = true
    ∧ stopCheck [5] true = false
    ∧ (SafeQueue.pop [5]).isSome = true :=
  ⟨by decide, by decide, pop_precondition [5] true (by decide) (by decide)⟩

/-- C8: `close()` is idempotent — after one `close()`, a second
`close()` performs zero `join` calls (so it can neither hang on a join
nor join a thread twice) and leaves the pool state unchanged, and the
destructor's guarded invocation is a no-op as well. -/
theorem close_idempotent (s : CloseState) :
    close (close s).1 = ((close s).1, 0)
    ∧ destructor (close s).1 = ((close s).1, 0) := by
  constructor
  · simp [close, List.map_map, List.count_eq_zero]
  · simp [destructor, close]

/-- C5 counterexample: with the default bounds of src/ThreadPool.h:38-39
(`maxThreads = 20` when `2 * hardware_concurrency() ≤ 20`,
`minThreads = 2`) and 2 permanent workers, one `addWorkers(19, true)`
call grows the temporary-worker map to 19, which exceeds
`maxThreads − permanentThreads = 18`, and pushes the active worker
count `getThreadNum` to 21 > `maxThreads`: the loop guard of
src/ThreadPool.h:270 bounds the temporary map by `m_maxThreads` alone,
not by `m_maxThreads − m_workers.size()`. -/
theorem temp_bound_counterexample :
    (addWorkersTemp 0 20 19).1 = 19
    ∧ 20 - 2 < (addWorkersTemp 0 20 19).1
    ∧ 20 < getThreadNum 2 (addWorkersTemp 0 20 19).1 := by decide

/-- C5 amended: the temporary-worker map never exceeds `maxThreads`
itself (the bound actually enforced by src/ThreadPool.h:270):
`addWorkers(n, true)` starting from at most `maxThreads` temporary
workers never grows the map beyond `maxThreads`. -/
theorem temp_bound_amended (temp maxT n : Nat) (h : temp ≤ maxT) :
    (addWorkersTemp temp maxT n).1 ≤ maxT := by
  rw [addWorkersTemp_fst maxT n temp h]
  omega

/-- Witness for `temp_bound_amended` with an empty temporary map,
`maxThreads = 20` and a request for 19 threads. -/
theorem temp_bound_amended_witness :
    (0 : Nat) ≤ 20 ∧ (addWorkersTemp 0 20 19).1 ≤ 20 :=
  ⟨by decide, temp_bound_amended 0 20 19 (by decide)⟩

/-- C7 counterexample: a manager wake that observes `m_running == false`
while `m_threadExitQueue` still holds a joinable handle returns
immediately (src/ThreadPool.h:331-332) with the retirement queue
untouched — no final reap: the drain loop of src/ThreadPool.h:334-340
sits *after* the early `return`. -/
theorem manager_exit_counterexample :
    managerIter mgrStopped 0 = MgrOut.halt mgrStopped
    ∧ mgrStopped.exitQ ≠ [] := by decide

/-- C7 amended: when the manager observes `running == false` it exits
immediately, with the pool state untouched — in particular it spawns no
further temporary workers, but it also performs no final reap of the
retirement queue (that queue is drained later by `close()`, which joins
the manager first and then empties `m_threadExitQueue`,
src/ThreadPool.h:100-109). -/
theorem manager_exit_amended (s : MgrState) (now : Nat)
    (h : s.running = false) :
    managerIter s now = MgrOut.halt s := by
  simp [managerIter, h]

/-- Witness for `manager_exit_amended` at the stopped-pool state. -/
theorem manager_exit_amended_witness :
    mgrStopped.running = false
    ∧ managerIter mgrStopped 5 = MgrOut.halt mgrStopped :=
  ⟨rfl, manager_exit_amended mgrStopped 5 rfl⟩

/-- C6: at any manager wake of a running pool (a wake is either the
2-second timeout of `wait_until` or a notification with the wait
predicate true, src/ThreadPool.h:319-330), at least 1 second has
elapsed since the last scale-up; the iteration scales up exactly when
the pending task count is at least twice the permanent-worker count,
spawning a batch of `m_workers.size()` temporary workers capped at
`m_maxThreads`, and it moves the `lastScaleUp` timestamp to the wake
time exactly when at least one thread was actually created. -/
theorem manager_scale_spec (s : MgrState) (waitStart now : Nat)
    (h1 : s.lastScaleUp ≤ waitStart)
    (h2 : managerWake s waitStart now)
    (h3 : s.running = true)
    (h4 : s.tempCount ≤ s.maxThreads) :
    (1000 ≤ now - s.lastScaleUp)
    ∧ (2 * s.workersLen ≤ s.tasksLen →
        managerIter s now = MgrOut.next
          { s with exitQ := []
                   tempCount := min (s.tempCount + s.workersLen) s.maxThreads
                   lastScaleUp :=
                     if 0 < s.workersLen ∧ s.tempCount < s.maxThreads then now
                     else s.lastScaleUp })
    ∧ (s.tasksLen < 2 * s.workersLen →
        managerIter s now = MgrOut.next { s with exitQ := [] }) := by
  have helapsed : 1000 ≤ now - s.lastScaleUp := by
    rcases h2 with hto | hpred
    · omega
    · rcases hpred with ⟨he, -⟩ | hstop
      · exact he
      · rw [h3] at hstop
        exact absurd hstop (by simp)
  have hfst := addWorkersTemp_fst s.maxThreads s.workersLen s.tempCount h4
  have hpos := addWorkersTemp_pos s.maxThreads s.workersLen s.tempCount
  refine ⟨helapsed, ?_, ?_⟩
  · intro hback
    rw [managerIter_run s now h3, if_pos hback]
    by_cases hc : 0 < s.workersLen ∧ s.tempCount < s.maxThreads
    · rw [if_pos (hpos.mpr hc), if_pos hc, hfst]
    · rw [if_neg (fun hgt => hc (hpos.mp hgt)), if_neg hc, hfst]
  · intro hlt
    rw [managerIter_run s now h3, if_neg (by omega)]

/-- Witness for `manager_scale_spec`: a 2-second timeout wake at
`now = 2000` on a running pool with 2 permanent workers and 8 pending
tasks scales up by 2 temporary workers and stamps `lastScaleUp`. -/
theorem manager_scale_spec_witness :
    mgrBacklog.lastScaleUp ≤ 0
    ∧ managerWake mgrBacklog 0 2000
    ∧ mgrBacklog.running = true
    ∧ mgrBacklog.tempCount ≤ mgrBacklog.maxThreads
    ∧ 2 * mgrBacklog.workersLen ≤ mgrBacklog.tasksLen
    ∧ managerIter mgrBacklog 2000 = MgrOut.next
        { mgrBacklog with
            exitQ := []
            tempCount := min (mgrBacklog.tempCount + mgrBacklog.workersLen) mgrBacklog.maxThreads
            lastScaleUp :=
              if 0 < mgrBacklog.workersLen ∧ mgrBacklog.tempCount < mgrBacklog.maxThreads then 2000
              else mgrBacklog.lastScaleUp } :=
  ⟨by decide, Or.inl rfl, rfl, by decide, by decide,
    (manager_scale_spec mgrBacklog 0 2000 (by decide) (Or.inl rfl) rfl
      (by decide)).2.1 (by decide)⟩

/-- C4 counterexample: the claim requires every worker-loop exit to
happen with `running == false`, but a temporary worker whose 5-second
`wait_until` times out (src/ThreadPool.h:230-236) retires and returns
while the pool is still running: here a reachable pool with one idle
temporary worker takes exactly that step with `running == true`. -/
theorem worker_exit_counterexample :
    Reachable okEnv 1 idleTempState
    ∧ Step okEnv idleTempState idleTempRetired
    ∧ idleTempState.running = true
    ∧ idleTempState.temps.get? 0 = some WStatus.waiting
    ∧ idleTempRetired.temps.get? 0 = some WStatus.retired := by
  refine ⟨?_, ?_, rfl, rfl, rfl⟩
  · exact Relation.ReflTransGen.single (Step.spawnTemp (init 1) rfl)
  · exact Step.tempTimeout idleTempState 0 rfl rfl

/-- C4 amended: no worker loop ever exits while tasks remain in the
queue — every exit path sees an empty `m_tasks`; a permanent worker
exits only with `running == false`, and a temporary worker exits either
with `running == false` (stop branch) or, through the idle-timeout
branch, with `running` still true. -/
theorem worker_exit_amended {env : Nat → Except Nat Nat} {s t : PoolState}
    (hst : Step env s t) :
    (∀ i, s.workers.get? i ≠ some WStatus.terminated →
        t.workers.get? i = some WStatus.terminated →
        s.tasks = [] ∧ s.running = false)
    ∧ (∀ i, s.temps.get? i ≠ some WStatus.terminated →
        t.temps.get? i = some WStatus.terminated →
        s.tasks = [] ∧ s.running = false)
    ∧ (∀ i, s.temps.get? i ≠ some WStatus.retired →
        t.temps.get? i = some WStatus.retired →
        s.tasks = [] ∧ s.running = true) := by
  cases hst with
  | submit hr =>
    exact ⟨fun i hne heq => absurd heq hne, fun i hne heq => absurd heq hne,
      fun i hne heq => absurd heq hne⟩
  | closeFlag =>
    exact ⟨fun i hne heq => absurd heq hne, fun i hne heq => absurd heq hne,
      fun i hne heq => absurd heq hne⟩
  | workerTake i' t' rest hi hw hs hp =>
    refine ⟨?_, fun i hne heq => absurd heq hne, fun i hne heq => absurd heq hne⟩
    intro i hne heq
    rcases get?_set_cases heq with hc | hc
    · exact absurd hc (by simp)
    · exact absurd hc hne
  | workerFinish i' t' hi =>
    refine ⟨?_, fun i hne heq => absurd heq hne, fun i hne heq => absurd heq hne⟩
    intro i hne heq
    rcases get?_set_cases heq with hc | hc
    · exact absurd hc (by simp)
    · exact absurd hc hne
  | workerExit i' hi hs =>
    exact ⟨fun i hne heq => ⟨(stopCheck_true hs).2, (stopCheck_true hs).1⟩,
      fun i hne heq => absurd heq hne, fun i hne heq => absurd heq hne⟩
  | tempTake i' t' rest hi hw hs hp =>
    refine ⟨fun i hne heq => absurd heq hne, ?_, ?_⟩ <;>
      (intro i hne heq
       rcases get?_set_cases heq with hc | hc
       · exact absurd hc (by simp)
       · exact absurd hc hne)
  | tempFinish i' t' hi =>
    refine ⟨fun i hne heq => absurd heq hne, ?_, ?_⟩ <;>
      (intro i hne heq
       rcases get?_set_cases heq with hc | hc
       · exact absurd hc (by simp)
       · exact absurd hc hne)
  | tempExit i' hi hs =>
    refine ⟨fun i hne heq => absurd heq hne,
      fun i hne heq => ⟨(stopCheck_true hs).2, (stopCheck_true hs).1⟩, ?_⟩
    intro i hne heq
    rcases get?_set_cases heq with hc | hc
    · exact absurd hc (by simp)
    · exact absurd hc hne
  | tempTimeout i' hi hw =>
    refine ⟨fun i hne heq => absurd heq hne, ?_,
      fun i hne heq => ⟨(cvWaitPred_false hw).2, (cvWaitPred_false hw).1⟩⟩
    intro i hne heq
    rcases get?_set_cases heq with hc | hc
    · exact absurd hc (by simp)
    · exact absurd hc hne
  | spawnTemp hr =>
    refine ⟨fun i hne heq => absurd heq hne, ?_, ?_⟩ <;>
      (intro i hne heq
       rcases get?_append_singleton_cases heq with hc | hc
       · exact absurd hc hne
       · exact absurd hc (by simp))

/-- Witness for `worker_exit_amended`: the stop-branch exit of the one
permanent worker of a closed, drained pool. -/
theorem worker_exit_amended_witness :
    closedIdleState.tasks = [] ∧ closedIdleState.running = false :=
  (worker_exit_amended (@Step.workerExit okEnv closedIdleState 0 rfl rfl)).1 0
    (by decide) rfl

/-- C3: when a worker (permanent or temporary) finishes a task whose
body raised an error, the worker's loop continues — its slot returns to
`waiting`, it is not terminated — and the error outcome is stored in
the task's handle, so retrieval observes the error instead of hanging.
The try/catch of src/ThreadPool.h:192-205 and 242-255 absorbs anything
escaping the invocation, and the `packaged_task` stores the thrown
error in the task's future. -/
theorem task_failure_contained {env : Nat → Except Nat Nat} {s t : PoolState}
    {i id e : Nat} (hst : Step env s t) (henv : env id = Except.error e) :
    (s.workers.get? i = some (WStatus.executing id) →
      t.workers.get? i ≠ some (WStatus.executing id) →
      t.workers.get? i = some WStatus.waiting
        ∧ t.handles id = some (Except.error e))
    ∧ (s.temps.get? i = some (WStatus.executing id) →
      t.temps.get? i ≠ some (WStatus.executing id) →
      t.temps.get? i = some WStatus.waiting
        ∧ t.handles id = some (Except.error e)) := by
  cases hst with
  | submit hr => exact ⟨fun hcur hch => absurd hcur hch, fun hcur hch => absurd hcur hch⟩
  | closeFlag => exact ⟨fun hcur hch => absurd hcur hch, fun hcur hch => absurd hcur hch⟩
  | workerTake i' t' rest hi hw hs hp =>
    refine ⟨?_, fun hcur hch => absurd hcur hch⟩
    intro hcur hch
    rcases eq_or_ne i i' with rfl | hne
    · exact absurd (hi.symm.trans hcur) (by simp)
    · exact absurd ((List.get?_set_ne _ _ (Ne.symm hne)).trans hcur) hch
  | workerFinish i' t' hi =>
    refine ⟨?_, fun hcur hch => absurd hcur hch⟩
    intro hcur hch
    rcases eq_or_ne i i' with rfl | hne
    · have ht' : t' = id := by
        have := hi.symm.trans hcur
        simpa using this
      subst ht'
      obtain ⟨hlt, -⟩ := List.get?_eq_some.mp hi
      refine ⟨List.get?_set_eq_of_lt _ hlt, ?_⟩
      show (if t' = t' then some (env t') else s.handles t') = some (Except.error e)
      rw [if_pos rfl, henv]
    · exact absurd ((List.get?_set_ne _ _ (Ne.symm hne)).trans hcur) hch
  | workerExit i' hi hs =>
    refine ⟨?_, fun hcur hch => absurd hcur hch⟩
    intro hcur hch
    rcases eq_or_ne i i' with rfl | hne
    · exact absurd (hi.symm.trans hcur) (by simp)
    · exact absurd ((List.get?_set_ne _ _ (Ne.symm hne)).trans hcur) hch
  | tempTake i' t' rest hi hw hs hp =>
    refine ⟨fun hcur hch => absurd hcur hch, ?_⟩
    intro hcur hch
    rcases eq_or_ne i i' with rfl | hne
    · exact absurd (hi.symm.trans hcur) (by simp)
    · exact absurd ((List.get?_set_ne _ _ (Ne.symm hne)).trans hcur) hch
  | tempFinish i' t' hi =>
    refine ⟨fun hcur hch => absurd hcur hch, ?_⟩
    intro hcur hch
    rcases eq_or_ne i i' with rfl | hne
    · have ht' : t' = id := by
        have := hi.symm.trans hcur
        simpa using this
      subst ht'
      obtain ⟨hlt, -⟩ := List.get?_eq_some.mp hi
      refine ⟨List.get?_set_eq_of_lt _ hlt, ?_⟩
      show (if t' = t' then some (env t') else s.handles t') = some (Except.error e)
      rw [if_pos rfl, henv]
    · exact absurd ((List.get?_set_ne _ _ (Ne.symm hne)).trans hcur) hch
  | tempExit i' hi hs =>
    refine ⟨fun hcur hch => absurd hcur hch, ?_⟩
    intro hcur hch
    rcases eq_or_ne i i' with rfl | hne
    · exact absurd (hi.symm.trans hcur) (by simp)
    · exact absurd ((List.get?_set_ne _ _ (Ne.symm hne)).trans hcur) hch
  | tempTimeout i' hi hw =>
    refine ⟨fun hcur hch => absurd hcur hch, ?_⟩
    intro hcur hch
    rcases eq_or_ne i i' with rfl | hne
    · exact absurd (hi.symm.trans hcur) (by simp)
    · exact absurd ((List.get?_set_ne _ _ (Ne.symm hne)).trans hcur) hch
  | spawnTemp hr =>
    refine ⟨fun hcur hch => absurd hcur hch, ?_⟩
    intro hcur hch
    obtain ⟨hlt, -⟩ := List.get?_eq_some.mp hcur
    exact absurd ((List.get?_append hlt).trans hcur) hch

/-- Witness for `task_failure_contained`: the one worker of
`failingTaskState` finishes task 0, whose body throws error 7 under
`errEnv`; afterwards the worker is back to `waiting` and handle 0
holds the error. -/
theorem task_failure_contained_witness :
    errEnv 0 = Except.error 7
    ∧ failedHandledState.workers.get? 0 = some WStatus.waiting
    ∧ failedHandledState.handles 0 = some (Except.error 7) := by
  have h := (@task_failure_contained errEnv failingTaskState _ 0 0 7
    (@Step.workerFinish errEnv failingTaskState 0 0 rfl) rfl).1 rfl (by decide)
  exact ⟨rfl, h.1, h.2⟩

/-- C1: no task loss.  In every reachable pool state in which every
worker loop has returned (which is exactly what `close()` waits for:
it joins the manager, every temporary and every permanent worker
before returning), the multiset of executed task ids equals
`{0, …, nextId − 1}` — every task accepted by `submit` has been
executed, each exactly once — and the task queue is empty: tasks that
were already enqueued when `running` became false were still drained,
never dropped. -/
theorem no_task_loss {env : Nat → Except Nat Nat} {n : Nat} {s : PoolState}
    (hn : 0 < n) (hr : Reachable env n s) (hd : allDone s) :
    s.executed = Multiset.range s.nextId ∧ s.tasks = [] := by
  obtain ⟨h1, h2, h3, h4⟩ := Inv_reachable hr hn
  have htasks : s.tasks = [] := h4 hd
  have hwz : inflight s.workers = 0 := by
    have hfm : s.workers.filterMap WStatus.taskOf = [] :=
      List.filterMap_eq_nil.mpr (fun a ha => by rw [hd.1 a ha]; rfl)
    simp [inflight, hfm]
  have htz : inflight s.temps = 0 := by
    have hfm : s.temps.filterMap WStatus.taskOf = [] :=
      List.filterMap_eq_nil.mpr
        (fun a ha => by rcases hd.2 a ha with h | h <;> rw [h] <;> rfl)
    simp [inflight, hfm]
  rw [htasks, hwz, htz] at h1
  refine ⟨?_, htasks⟩
  simpa using h1

/-- Witness for `no_task_loss`: from a fresh one-worker pool, submit
one task, let the worker take and finish it, flag `close()`, let the
worker exit; the resulting `drainedState` has executed exactly the one
accepted task and an empty queue. -/
theorem no_task_loss_witness :
    0 < 1
    ∧ Reachable okEnv 1 drainedState
    ∧ allDone drainedState
    ∧ drainedState.executed = Multiset.range drainedState.nextId
    ∧ drainedState.tasks = [] := by
  have hreach : Reachable okEnv 1 drainedState := by
    show Relation.ReflTransGen (Step okEnv) (init 1) drainedState
    refine Relation.ReflTransGen.head (Step.submit (init 1) rfl) ?_
    refine Relation.ReflTransGen.head (Step.workerTake _ 0 0 [] rfl rfl rfl rfl) ?_
    refine Relation.ReflTransGen.head (Step.workerFinish _ 0 0 rfl) ?_
    refine Relation.ReflTransGen.head (Step.closeFlag _) ?_
    refine Relation.ReflTransGen.head (Step.workerExit _ 0 rfl rfl) ?_
    exact Relation.ReflTransGen.refl
  have hdone : allDone drainedState := by
    constructor
    · intro w hw
      simp only [drainedState] at hw
      simpa using hw
    · intro w hw
      simp [drainedState] at hw
  have hmain := no_task_loss (by decide) hreach hdone
  exact ⟨by decide, hreach, hdone, hmain.1, hmain.2⟩

end TP
